import Mathlib

/-!
Shallow embedding of the crowbar diagram-canvas engine
(`src/widgets/canvas/Canvas.py`, `src/ui/UiUtils.py`) in Lean 4.

Coordinates are modelled as rationals (`ℚ`): the Python floats in play are
exact binary fractions at every value the code manipulates symbolically, and
the Qt geometry classes (`QPointF`, `QRectF`) are plain records over them.
Integer-valued Qt classes (`QRect`) are modelled over `ℤ`, including the
historical `right = left + width - 1` convention.  Python's `round` is
round-half-to-even, its `%` on a positive divisor agrees with `Int.emod`.
-/

namespace Crowbar

/-- Model of `QPointF`: a 2-D point with rational coordinates. -/
structure QPointF where
  x : ℚ
  y : ℚ
deriving DecidableEq

/-- Model of `QRectF`, stored as Qt stores it: origin plus size. -/
structure QRectF where
  left : ℚ
  top : ℚ
  width : ℚ
  height : ℚ
deriving DecidableEq

/-- Model of `QRectF.right() = x + width` (no off-by-one for the float rect). -/
def QRectF.right (r : QRectF) : ℚ := r.left + r.width

/-- Model of `QRectF.bottom() = y + height`. -/
def QRectF.bottom (r : QRectF) : ℚ := r.top + r.height

/-- Model of `QRectF.center()`. -/
def QRectF.center (r : QRectF) : QPointF :=
  ⟨r.left + r.width / 2, r.top + r.height / 2⟩

/-- Model of `QRectF.contains(QPointF)`: inside or on the edge. -/
def QRectF.containsPoint (r : QRectF) (p : QPointF) : Bool :=
  decide (r.left ≤ p.x) && decide (p.x ≤ r.right) &&
  decide (r.top ≤ p.y) && decide (p.y ≤ r.bottom)

/-- Python's built-in `round` on an exact value: round half to even. -/
def pyRound (q : ℚ) : ℤ :=
  if q - ⌊q⌋ < 1/2 then ⌊q⌋
  else if 1/2 < q - ⌊q⌋ then ⌊q⌋ + 1
  else if ⌊q⌋ % 2 = 0 then ⌊q⌋ else ⌊q⌋ + 1

/-- One coordinate of the grid-snap step of `Component.itemChange`:
`round(v / grid_snap_increment) * grid_snap_increment`. -/
def snapToGrid (inc : ℚ) (v : ℚ) : ℚ :=
  (pyRound (v / inc) : ℤ) * inc

/-- The Scene-level policy a `Component` reads back through `self.scene()`:
its `sceneRect()` and its `grid_snap_increment()`. -/
structure SceneParams where
  sceneRect : QRectF
  snapIncrement : ℚ
deriving DecidableEq

/-- Model of `CanvasScene.__init__` calls `setSceneRect(-5000, -500, 10000, 10000)`. -/
def canvasSceneRect : QRectF := ⟨-5000, -500, 10000, 10000⟩

/-- Model of `CanvasScene._grid_snap_increment = 10`. -/
def canvasSnapIncrement : ℚ := 10

/-- The concrete `CanvasScene` policy record. -/
def canvasSceneParams : SceneParams := ⟨canvasSceneRect, canvasSnapIncrement⟩

/-- The `QGraphicsItem.GraphicsItemChange` values `Component.itemChange`
distinguishes: `ItemPositionChange` versus everything else. -/
inductive GraphicsItemChange
  | itemPositionChange
  | otherChange
deriving DecidableEq

/-- Model of `Component.itemChange(change, new_pos)`.  When the change is a position
change and the item belongs to a scene (`self.scene()` is not `None`), the
proposed point is clamped into the scene rect (only when it lies outside) and
then each coordinate is snapped to the grid; otherwise the Qt default
`QGraphicsItem.itemChange` returns the proposed value unchanged. -/
def itemChange (sceneOpt : Option SceneParams) (change : GraphicsItemChange)
    (newPos : QPointF) : QPointF :=
  match change, sceneOpt with
  | .itemPositionChange, some sc =>
    let sr := sc.sceneRect
    let p :=
      if sr.containsPoint newPos then newPos
      else ⟨min sr.right (max newPos.x sr.left),
            min sr.bottom (max newPos.y sr.top)⟩
    ⟨snapToGrid sc.snapIncrement p.x, snapToGrid sc.snapIncrement p.y⟩
  | _, _ => newPos

/-- Model of `Socket`: where on a `Component` a `Wire` is attached. -/
inductive Socket
  | NONE
  | TOP
  | BOTTOM
  | LEFT
  | RIGHT
deriving DecidableEq

/-- Model of `Mode`: the usage and appearance of a `Wire`. -/
inductive Mode
  | NORMAL
  | TRUE
  | FALSE
  | ERROR
deriving DecidableEq

/-- An RGB `QColor`. -/
structure QColor where
  r : ℕ
  g : ℕ
  b : ℕ
deriving DecidableEq

/-- Model of `Component._DEFAULT_SIZE_W`. -/
def defaultSizeW : ℚ := 80

/-- Model of `Component._DEFAULT_SIZE_H`. -/
def defaultSizeH : ℚ := 80

/-- A `Component` (a `QGraphicsRectItem`): its construction-time rectangle
`rect()`, the item's current position offset (`QGraphicsItem.pos()`, the
quantity `itemChange` intercepts; `(0,0)` at construction), and its title.
Note that moving the item changes `offset`, never `rect`. -/
structure Component where
  rect : QRectF
  offset : QPointF
  title : String
deriving DecidableEq

/-- Model of `Component.__init__(pos, title)` builds the rect
`QRectF(pos.x - W/2, pos.y - H/2, W, H)` centred on `pos`. -/
def mkComponent (pos : QPointF) (title : String) : Component :=
  ⟨⟨pos.x - defaultSizeW / 2, pos.y - defaultSizeH / 2, defaultSizeW, defaultSizeH⟩,
   ⟨0, 0⟩, title⟩

/-- Model of `Component.pos()` returns `self.rect().center()`. -/
def Component.pos (c : Component) : QPointF := c.rect.center

/-- Model of `Component.socketPoint(side)`: a concrete point for the four directional
sockets, and `None` (the implicit Python fall-through) for `Socket.NONE`. -/
def Component.socketPoint (c : Component) : Socket → Option QPointF
  | .TOP => some ⟨c.pos.x, c.rect.top⟩
  | .BOTTOM => some ⟨c.pos.x, c.rect.bottom⟩
  | .LEFT => some ⟨c.rect.left, c.pos.y⟩
  | .RIGHT => some ⟨c.rect.right, c.pos.y⟩
  | .NONE => none

/-- The scene-coordinate position of a socket: Qt maps an item-local point to
scene coordinates by adding the item's position offset (the items here carry
no rotation or scaling).  `Component.socketPoint` itself does not apply the
offset. -/
def Component.socketScenePoint (c : Component) (s : Socket) : Option QPointF :=
  (c.socketPoint s).map fun p => ⟨p.x + c.offset.x, p.y + c.offset.y⟩

/-- A `Wire` (a `QGraphicsPolygonItem`): mode, title, current pen color and
the routed polygon path. -/
structure Wire where
  mode : Mode
  title : String
  penColor : QColor
  path : List QPointF
deriving DecidableEq

namespace Wire

/-- Model of `Wire._color`: the fixed mode→color table. -/
def _color : Mode → QColor
  | .NORMAL => ⟨192, 192, 192⟩
  | .TRUE => ⟨0, 192, 0⟩
  | .FALSE => ⟨192, 0, 0⟩
  | .ERROR => ⟨192, 192, 0⟩

/-- Model of `Wire.autoRoute`: rebuild the polygon as the two-point path from the
source socket point to the target socket point. -/
def autoRoute (w : Wire) (fromComponent : Component) (fromSocket : Socket)
    (toComponent : Component) (toSocket : Socket) : Wire :=
  { w with path := (fromComponent.socketPoint fromSocket).toList ++
                   (toComponent.socketPoint toSocket).toList }

/-- Model of `Wire.setMode`: store the mode, then re-derive the pen color from the
mode via the `_color` table. -/
def setMode (w : Wire) (m : Mode) : Wire :=
  { w with mode := m, penColor := _color m }

/-- Model of `Wire.setTitle`: `'' if title is None else title`. -/
def setTitle (w : Wire) (t : Option String) : Wire :=
  { w with title := t.getD "" }

/-- Model of `Wire.__init__`: a fresh pen (default black), then `autoRoute`, then
`setMode`, then `setTitle`.  The placeholder mode is overwritten by
`setMode` before the constructor returns. -/
def init (fromComponent : Component) (fromSocket : Socket)
    (toComponent : Component) (toSocket : Socket)
    (mode : Mode) (title : Option String) : Wire :=
  (((⟨Mode.NORMAL, "", ⟨0, 0, 0⟩, []⟩ : Wire).autoRoute
      fromComponent fromSocket toComponent toSocket).setMode mode).setTitle title

end Wire

/-- A minimal diagram: two components joined by one wire, living in a scene.
This is the state the move/re-route claims quantify over. -/
structure Diagram where
  compA : Component
  compB : Component
  fromSocket : Socket
  toSocket : Socket
  wire : Wire
deriving DecidableEq

/-- Build a diagram: two components and a wire from a socket of `A` to a
socket of `B`, exactly as the application layer constructs them. -/
def mkDiagram (posA posB : QPointF) (fs ts : Socket) (m : Mode) : Diagram :=
  let a := mkComponent posA "A"
  let b := mkComponent posB "B"
  ⟨a, b, fs, ts, Wire.init a fs b ts m none⟩

/-- The operations the surrounding code performs on a diagram.  A move of a
component goes through `Component.itemChange` (which clamps and snaps the
proposed position) and commits the result as the item's position offset;
nothing in the code touches the wire when a component moves. -/
inductive DiagramOp
  | moveA (p : QPointF)
  | moveB (p : QPointF)
  | setWireMode (m : Mode)

/-- One step of the diagram, under scene policy `sc`. -/
def Diagram.step (sc : SceneParams) (d : Diagram) : DiagramOp → Diagram
  | .moveA p =>
    { d with compA :=
        { d.compA with offset := itemChange (some sc) .itemPositionChange p } }
  | .moveB p =>
    { d with compB :=
        { d.compB with offset := itemChange (some sc) .itemPositionChange p } }
  | .setWireMode m => { d with wire := d.wire.setMode m }

namespace CanvasView

/-- Model of `CanvasView._zoom_factor = 1.25`. -/
def _zoom_factor : ℚ := 5/4

/-- Model of `CanvasView._zoom_min = 0.125`. -/
def _zoom_min : ℚ := 1/8

/-- Model of `CanvasView._zoom_max = 8`. -/
def _zoom_max : ℚ := 8

/-- The zoom-relevant state of a `CanvasView`: the tracked `_zoom` scalar and
the `m11` scale entry of the view's transform (`self.transform().m11()`,
which `self.scale(f, f)` multiplies by `f`). -/
structure ZoomState where
  zoom : ℚ
  m11 : ℚ
deriving DecidableEq

/-- At construction `_zoom = 1.0` and the transform is the identity. -/
def initState : ZoomState := ⟨1, 1⟩

/-- Model of `CanvasView.zoom_by_factor(factor)`: propose `new_zoom = _zoom * factor`;
only if `_zoom_min < new_zoom < _zoom_max`, apply `scale(factor, factor)` and
re-read `_zoom` from the transform's `m11`; otherwise do nothing. -/
def zoom_by_factor (s : ZoomState) (factor : ℚ) : ZoomState :=
  let new_zoom := s.zoom * factor
  if _zoom_min < new_zoom ∧ new_zoom < _zoom_max then
    let m := s.m11 * factor
    ⟨m, m⟩
  else s

/-- Model of `CanvasView.zoom_in()`. -/
def zoom_in (s : ZoomState) : ZoomState := zoom_by_factor s _zoom_factor

/-- Model of `CanvasView.zoom_out()`: the factor is `1 / _zoom_factor`. -/
def zoom_out (s : ZoomState) : ZoomState := zoom_by_factor s (1 / _zoom_factor)

/-- Model of `CanvasView.zoom_reset()`: `scale(1/_zoom, 1/_zoom)` then re-read
`_zoom` from `m11`, unconditionally. -/
def zoom_reset (s : ZoomState) : ZoomState :=
  let m := s.m11 * (1 / s.zoom)
  ⟨m, m⟩

/-- Model of `CanvasView.zoom_to_fit()`: `fitInView` replaces the transform with the
scale `k` that fits the items' bounding rect into the viewport (the value of
`k` depends on geometry this model abstracts as a parameter), then `_zoom`
is re-read from `m11`. -/
def zoom_to_fit (_s : ZoomState) (k : ℚ) : ZoomState := ⟨k, k⟩

/-- A run of toolbar zoom calls restricted to `zoom_in`/`zoom_out`. -/
inductive ZoomCall
  | zin
  | zout
deriving DecidableEq

/-- Apply one `zoom_in`/`zoom_out` call. -/
def applyZoomCall (s : ZoomState) : ZoomCall → ZoomState
  | .zin => zoom_in s
  | .zout => zoom_out s

/-- Apply a finite sequence of `zoom_in`/`zoom_out` calls in order. -/
def applyZoomCalls (s : ZoomState) (calls : List ZoomCall) : ZoomState :=
  calls.foldl applyZoomCall s

/-- A run of arbitrary zoom operations, `zoom_to_fit` included (carrying the
scale `fitInView` would commit). -/
inductive ZoomSeqOp
  | zin
  | zout
  | zfit (k : ℚ)
deriving DecidableEq

/-- Model of `fitInView` on the scenes at hand commits a positive scale; this marks
the `zfit` payloads of a run as positive. -/
def fitOk : ZoomSeqOp → Bool
  | .zfit k => decide (0 < k)
  | _ => true

/-- Apply one zoom operation. -/
def applyZoomSeqOp (s : ZoomState) : ZoomSeqOp → ZoomState
  | .zin => zoom_in s
  | .zout => zoom_out s
  | .zfit k => zoom_to_fit s k

/-- Apply a finite sequence of zoom operations in order. -/
def applyZoomSeq (s : ZoomState) (ops : List ZoomSeqOp) : ZoomState :=
  ops.foldl applyZoomSeqOp s

end CanvasView

/-! The input classifier of `src/ui/UiUtils.py`. -/

/-- Model of `Qt.RightButton`. -/
def rightButton : ℕ := 2

/-- Model of `Qt.MiddleButton`. -/
def middleButton : ℕ := 4

/-- Model of `Qt.BackButton`. -/
def backButton : ℕ := 8

/-- Model of `Qt.ForwardButton`. -/
def forwardButton : ℕ := 16

/-- Model of `Qt.LeftButton`. -/
def leftButton : ℕ := 1

/-- The part of an input event `click_descriptor` inspects besides the
modifiers: either a wheel event with its `angleDelta()` components, or any
other pointer event with its `button()` value. -/
inductive EventKind
  | wheel (dx dy : ℤ)
  | button (b : ℕ)
deriving DecidableEq

/-- An input event as seen by the classifier: the three modifier tests
(`with_control_key`, `with_alt_key`, `with_shift_key`) plus the kind. -/
structure InputEvent where
  ctrl : Bool
  alt : Bool
  shift : Bool
  kind : EventKind
deriving DecidableEq

/-- Model of `UiUtils.click_descriptor(event, suffix)`: accumulate `ctrl-`, `alt-`,
`shift-` for the held modifiers, then the wheel-direction or button token,
then append the suffix.  An unrecognized positive button value yields
`unknown-` (plus a printed diagnostic, a side effect outside this model);
`button() == 0` appends no token. -/
def click_descriptor (e : InputEvent) (suffix : String) : String :=
  let action := ""
  let action := if e.ctrl then action ++ "ctrl-" else action
  let action := if e.alt then action ++ "alt-" else action
  let action := if e.shift then action ++ "shift-" else action
  let action :=
    match e.kind with
    | .wheel dx dy =>
      let action :=
        if 0 < dy then action ++ "up-"
        else if dy < 0 then action ++ "down-"
        else action
      if 0 < dx then action ++ "left-"
      else if dx < 0 then action ++ "right-"
      else action
    | .button b =>
      if b == rightButton then action ++ "right-"
      else if b == middleButton then action ++ "middle-"
      else if b == backButton then action ++ "back-"
      else if b == forwardButton then action ++ "fwd-"
      else if b == leftButton then action ++ "left-"
      else if 0 < b then action ++ "unknown-"
      else action
  action ++ suffix

/-- The modifier block of a descriptor, in the fixed order
ctrl → alt → shift. -/
def modifierTokens (ctrl alt shift : Bool) : String :=
  (if ctrl then "ctrl-" else "") ++
  ((if alt then "alt-" else "") ++ (if shift then "shift-" else ""))

/-- The direction block a wheel event contributes. -/
def wheelTokens (dx dy : ℤ) : String :=
  (if 0 < dy then "up-" else if dy < 0 then "down-" else "") ++
  (if 0 < dx then "left-" else if dx < 0 then "right-" else "")

/-- The token a button value contributes. -/
def buttonToken (b : ℕ) : String :=
  if b == rightButton then "right-"
  else if b == middleButton then "middle-"
  else if b == backButton then "back-"
  else if b == forwardButton then "fwd-"
  else if b == leftButton then "left-"
  else if 0 < b then "unknown-"
  else ""

/-- The single action-token block of an event. -/
def actionToken : EventKind → String
  | .wheel dx dy => wheelTokens dx dy
  | .button b => buttonToken b

/-- The button values the classifier recognizes, in the order tested. -/
def knownButtons : List ℕ :=
  [rightButton, middleButton, backButton, forwardButton, leftButton]

/-! The background-grid generation of `CanvasScene.drawBackground`. -/

/-- Model of the integer `QRect`, as Qt stores it: origin plus size. -/
structure QRectI where
  left : ℤ
  top : ℤ
  width : ℤ
  height : ℤ
deriving DecidableEq

/-- Model of `QRect.right() = x + width - 1` (the historical integer-rect quirk). -/
def QRectI.right (r : QRectI) : ℤ := r.left + r.width - 1

/-- Model of `QRect.bottom() = y + height - 1`. -/
def QRectI.bottom (r : QRectI) : ℤ := r.top + r.height - 1

/-- Model of `CanvasScene.grid_minor()` (`_grid_line_increment = 20`). -/
def grid_minor : ℤ := 20

/-- Model of `CanvasScene.grid_medium() = grid_minor() * 5`. -/
def grid_medium (minor : ℤ) : ℤ := minor * 5

/-- Model of `CanvasScene.grid_major() = grid_medium() * 5`. -/
def grid_major (minor : ℤ) : ℤ := grid_medium minor * 5

/-- Python's `range(start, stop, step)` for a positive step. -/
def pyRange (start stop : ℤ) (step : ℕ) : List ℤ :=
  if h : 0 < step ∧ start < stop then
    start :: pyRange (start + step) stop step
  else []
termination_by (stop - start).toNat
decreasing_by
  obtain ⟨h1, h2⟩ := h
  omega

/-- The expanded grid rectangle `r` computed at the top of `drawBackground`:
the viewport grown by an overshoot of one minor pitch plus the rounding
remainders (Python's `%` on a positive divisor). -/
def expandedGridRect (minor : ℤ) (rect : QRectI) : QRectI :=
  ⟨rect.left - minor - rect.left % minor,
   rect.top - minor - rect.top % minor,
   rect.width + 2 * (minor + rect.width % minor),
   rect.height + 2 * (minor + rect.height % minor)⟩

/-- A `QLineF` with the integral endpoints the grid code constructs. -/
structure LineSeg where
  x1 : ℤ
  y1 : ℤ
  x2 : ℤ
  y2 : ℤ
deriving DecidableEq

/-- The vertical grid line `QLineF(x, r.top(), x, r.bottom())`. -/
def vLine (r : QRectI) (x : ℤ) : LineSeg := ⟨x, r.top, x, r.bottom⟩

/-- The horizontal grid line `QLineF(r.left(), y, r.right(), y)`. -/
def hLine (r : QRectI) (y : ℤ) : LineSeg := ⟨r.left, y, r.right, y⟩

/-- The per-axis binning loop: for each coordinate, `if not c % major` put it
in the major bin, `elif not c % medium` the medium bin, else the minor bin,
preserving order. -/
def sortCoords (major medium : ℤ) : List ℤ → List ℤ × List ℤ × List ℤ
  | [] => ([], [], [])
  | c :: cs =>
    let rest := sortCoords major medium cs
    if c % major = 0 then (c :: rest.1, rest.2.1, rest.2.2)
    else if c % medium = 0 then (rest.1, c :: rest.2.1, rest.2.2)
    else (rest.1, rest.2.1, c :: rest.2.2)

/-- The four line bins `drawBackground` hands to the painter. -/
structure GridBins where
  linesMinor : List LineSeg
  linesMedium : List LineSeg
  linesMajor : List LineSeg
  linesAxis : List LineSeg
deriving DecidableEq

/-- The line-generation portion of `CanvasScene.drawBackground`: vertical
lines for `x in range(r.left(), r.right(), grid_minor())`, horizontal lines
for `y in range(r.top(), r.bottom(), grid_minor())`, binned by divisibility,
plus the two unconditional axis lines. -/
def drawBackgroundLines (minor : ℤ) (rect : QRectI) : GridBins :=
  let r := expandedGridRect minor rect
  let xs := pyRange r.left r.right minor.toNat
  let ys := pyRange r.top r.bottom minor.toNat
  let xBins := sortCoords (grid_major minor) (grid_medium minor) xs
  let yBins := sortCoords (grid_major minor) (grid_medium minor) ys
  { linesMinor := xBins.2.2.map (vLine r) ++ yBins.2.2.map (hLine r)
    linesMedium := xBins.2.1.map (vLine r) ++ yBins.2.1.map (hLine r)
    linesMajor := xBins.1.map (vLine r) ++ yBins.1.map (hLine r)
    linesAxis := [⟨0, r.top, 0, r.bottom⟩, ⟨r.left, 0, r.right, 0⟩] }

/-! Theorems. -/

theorem floor_le_pyRound (q : ℚ) : ⌊q⌋ ≤ pyRound q := by
  unfold pyRound
  split_ifs <;> omega

theorem pyRound_le_floor_add_one (q : ℚ) : pyRound q ≤ ⌊q⌋ + 1 := by
  unfold pyRound
  split_ifs <;> omega

theorem le_pyRound_of_le {a : ℤ} {q : ℚ} (h : (a : ℚ) ≤ q) : a ≤ pyRound q := by
  have hf : a ≤ ⌊q⌋ := Int.le_floor.mpr h
  have := floor_le_pyRound q
  omega

theorem pyRound_le_of_le {b : ℤ} {q : ℚ} (h : q ≤ (b : ℚ)) : pyRound q ≤ b := by
  have hfb : ⌊q⌋ ≤ b := by
    have := Int.floor_le_floor h
    simpa using this
  by_cases heq : ⌊q⌋ = b
  · have hq : q ≤ (⌊q⌋ : ℚ) := by rw [heq]; exact h
    have hr : q - ⌊q⌋ < 1/2 := by linarith
    unfold pyRound
    rw [if_pos hr]
    exact hfb
  · have h1 : ⌊q⌋ + 1 ≤ b := by omega
    have h2 := pyRound_le_floor_add_one q
    omega

theorem snapToGrid_bounds {inc : ℚ} (hinc : 0 < inc) {a b : ℤ} {v : ℚ}
    (hav : (a : ℚ) * inc ≤ v) (hvb : v ≤ (b : ℚ) * inc) :
    (a : ℚ) * inc ≤ snapToGrid inc v ∧ snapToGrid inc v ≤ (b : ℚ) * inc := by
  have ha : (a : ℚ) ≤ v / inc := by rw [le_div_iff₀ hinc]; exact hav
  have hb : v / inc ≤ (b : ℚ) := by rw [div_le_iff₀ hinc]; exact hvb
  have h1 : a ≤ pyRound (v / inc) := le_pyRound_of_le ha
  have h2 : pyRound (v / inc) ≤ b := pyRound_le_of_le hb
  have h1q : (a : ℚ) ≤ (pyRound (v / inc) : ℚ) := by exact_mod_cast h1
  have h2q : (pyRound (v / inc) : ℚ) ≤ (b : ℚ) := by exact_mod_cast h2
  unfold snapToGrid
  exact ⟨mul_le_mul_of_nonneg_right h1q hinc.le,
         mul_le_mul_of_nonneg_right h2q hinc.le⟩

theorem pyRound_intCast (n : ℤ) : pyRound (n : ℚ) = n := by
  unfold pyRound
  rw [Int.floor_intCast]
  norm_num

theorem snapToGrid_exact {inc : ℚ} (hinc : inc ≠ 0) (k : ℤ) :
    snapToGrid inc ((k : ℚ) * inc) = (k : ℚ) * inc := by
  unfold snapToGrid
  rw [mul_div_cancel_right₀ _ hinc, pyRound_intCast]

theorem clamp_snap_axis {inc lo hi v : ℚ} (hinc : 0 < inc) {kl kh : ℤ}
    (hlo : lo = (kl : ℚ) * inc) (hhi : hi = (kh : ℚ) * inc)
    (h1 : lo ≤ v) (h2 : v ≤ hi) :
    lo ≤ snapToGrid inc v ∧ snapToGrid inc v ≤ hi ∧
      ∃ k : ℤ, snapToGrid inc v = (k : ℚ) * inc := by
  subst hlo; subst hhi
  rcases snapToGrid_bounds hinc h1 h2 with ⟨hA, hB⟩
  exact ⟨hA, hB, pyRound (v / inc), rfl⟩

/-- C1: for every proposed new position of a `Component` owned by a Scene,
`Component.itemChange` commits a point inside the Scene's world bounds whose
coordinates are exact integer multiples of the Scene's snap increment,
provided the bounds themselves sit on the snap grid (as the concrete
`CanvasScene`'s bounds do).  Clamping happens first, then rounding to the
nearest multiple of the snap increment. -/
theorem itemChange_within_bounds_and_snapped (sc : SceneParams) (p : QPointF)
    (hinc : 0 < sc.snapIncrement)
    (hl : ∃ k : ℤ, sc.sceneRect.left = (k : ℚ) * sc.snapIncrement)
    (hr : ∃ k : ℤ, sc.sceneRect.right = (k : ℚ) * sc.snapIncrement)
    (ht : ∃ k : ℤ, sc.sceneRect.top = (k : ℚ) * sc.snapIncrement)
    (hb : ∃ k : ℤ, sc.sceneRect.bottom = (k : ℚ) * sc.snapIncrement)
    (hlr : sc.sceneRect.left ≤ sc.sceneRect.right)
    (htb : sc.sceneRect.top ≤ sc.sceneRect.bottom) :
    sc.sceneRect.containsPoint
      (itemChange (some sc) .itemPositionChange p) = true ∧
    (∃ k : ℤ, (itemChange (some sc) .itemPositionChange p).x =
      (k : ℚ) * sc.snapIncrement) ∧
    (∃ k : ℤ, (itemChange (some sc) .itemPositionChange p).y =
      (k : ℚ) * sc.snapIncrement) := by
  obtain ⟨kl, hkl⟩ := hl
  obtain ⟨kr, hkr⟩ := hr
  obtain ⟨kt, hkt⟩ := ht
  obtain ⟨kb, hkb⟩ := hb
  have hclamp :
      ∀ q : QPointF,
        (q = if sc.sceneRect.containsPoint p then p
             else ⟨min sc.sceneRect.right (max p.x sc.sceneRect.left),
                   min sc.sceneRect.bottom (max p.y sc.sceneRect.top)⟩) →
        sc.sceneRect.left ≤ q.x ∧ q.x ≤ sc.sceneRect.right ∧
        sc.sceneRect.top ≤ q.y ∧ q.y ≤ sc.sceneRect.bottom := by
    intro q hq
    by_cases hc : sc.sceneRect.containsPoint p
    · rw [if_pos hc] at hq
      subst hq
      simp only [QRectF.containsPoint, Bool.and_eq_true, decide_eq_true_eq] at hc
      exact ⟨hc.1.1.1, hc.1.1.2, hc.1.2, hc.2⟩
    · rw [if_neg hc] at hq
      subst hq
      refine ⟨le_min hlr (le_max_right _ _), min_le_left _ _,
              le_min htb (le_max_right _ _), min_le_left _ _⟩
  set q : QPointF :=
    if sc.sceneRect.containsPoint p then p
    else ⟨min sc.sceneRect.right (max p.x sc.sceneRect.left),
          min sc.sceneRect.bottom (max p.y sc.sceneRect.top)⟩ with hqdef
  obtain ⟨hq1, hq2, hq3, hq4⟩ := hclamp q hqdef
  have hx := clamp_snap_axis hinc hkl hkr hq1 hq2
  have hy := clamp_snap_axis hinc hkt hkb hq3 hq4
  have hres : itemChange (some sc) .itemPositionChange p =
      ⟨snapToGrid sc.snapIncrement q.x, snapToGrid sc.snapIncrement q.y⟩ := by
    simp only [itemChange, hqdef]
  rw [hres]
  refine ⟨?_, hx.2.2, hy.2.2⟩
  simp only [QRectF.containsPoint, Bool.and_eq_true, decide_eq_true_eq]
  exact ⟨⟨⟨hx.1, hx.2.1⟩, hy.1⟩, hy.2.1⟩

/-- Witness for C1 at the concrete `CanvasScene` (bounds
`(-5000, -500, 10000, 10000)`, snap increment 10) and the proposed position
`(1, 1)` from the spec's scenario. -/
theorem itemChange_within_bounds_and_snapped_witness :
    canvasSceneParams.sceneRect.containsPoint
      (itemChange (some canvasSceneParams) .itemPositionChange ⟨1, 1⟩) = true ∧
    (∃ k : ℤ, (itemChange (some canvasSceneParams) .itemPositionChange ⟨1, 1⟩).x =
      (k : ℚ) * canvasSceneParams.snapIncrement) ∧
    (∃ k : ℤ, (itemChange (some canvasSceneParams) .itemPositionChange ⟨1, 1⟩).y =
      (k : ℚ) * canvasSceneParams.snapIncrement) :=
  itemChange_within_bounds_and_snapped canvasSceneParams ⟨1, 1⟩
    (by norm_num [canvasSceneParams, canvasSnapIncrement])
    ⟨-500, by norm_num [canvasSceneParams, canvasSceneRect, canvasSnapIncrement]⟩
    ⟨500, by norm_num [canvasSceneParams, canvasSceneRect, canvasSnapIncrement,
      QRectF.right]⟩
    ⟨-50, by norm_num [canvasSceneParams, canvasSceneRect, canvasSnapIncrement]⟩
    ⟨950, by norm_num [canvasSceneParams, canvasSceneRect, canvasSnapIncrement,
      QRectF.bottom]⟩
    (by norm_num [canvasSceneParams, canvasSceneRect, QRectF.right])
    (by norm_num [canvasSceneParams, canvasSceneRect, QRectF.bottom])

/-- C9: a `Component` owned by no Scene gets neither the bounds clamp nor the
grid snap: `itemChange` falls through to the Qt default, which passes the
proposed value through unmodified, for every kind of change. -/
theorem itemChange_without_scene_is_default
    (change : GraphicsItemChange) (p : QPointF) :
    itemChange none change p = p := by
  cases change <;> rfl

/-- C10: `Component.socketPoint` yields the midpoint of the top edge for
`TOP`, of the bottom edge for `BOTTOM`, of the left edge for `LEFT`, of the
right edge for `RIGHT` (center x or y paired with the respective edge), and
no point at all for `Socket.NONE`. -/
theorem socketPoint_sides (c : Component) :
    c.socketPoint Socket.TOP =
      some ⟨c.rect.left + c.rect.width / 2, c.rect.top⟩ ∧
    c.socketPoint Socket.BOTTOM =
      some ⟨c.rect.left + c.rect.width / 2, c.rect.top + c.rect.height⟩ ∧
    c.socketPoint Socket.LEFT =
      some ⟨c.rect.left, c.rect.top + c.rect.height / 2⟩ ∧
    c.socketPoint Socket.RIGHT =
      some ⟨c.rect.left + c.rect.width, c.rect.top + c.rect.height / 2⟩ ∧
    c.socketPoint Socket.NONE = none :=
  ⟨rfl, rfl, rfl, rfl, rfl⟩

/-- C8: a `Wire`'s color is a pure function of its mode given by the fixed
table NORMAL→gray, TRUE→green, FALSE→red, ERROR→yellow; `setMode` re-derives
the pen color from the new mode (so no color lives independently of the
mode, at construction included), and moving either endpoint component leaves
an attached wire — its pen color in particular — untouched. -/
theorem wire_color_pure_function_of_mode :
    (Wire._color Mode.NORMAL = ⟨192, 192, 192⟩ ∧
     Wire._color Mode.TRUE = ⟨0, 192, 0⟩ ∧
     Wire._color Mode.FALSE = ⟨192, 0, 0⟩ ∧
     Wire._color Mode.ERROR = ⟨192, 192, 0⟩) ∧
    (∀ (w : Wire) (m : Mode),
      (w.setMode m).penColor = Wire._color m ∧
      (w.setMode m).penColor = Wire._color (w.setMode m).mode) ∧
    (∀ (fc : Component) (fs : Socket) (tc : Component) (ts : Socket)
       (m : Mode) (t : Option String),
      (Wire.init fc fs tc ts m t).penColor =
        Wire._color (Wire.init fc fs tc ts m t).mode) ∧
    (∀ (sc : SceneParams) (d : Diagram) (p : QPointF),
      (d.step sc (.moveA p)).wire.penColor = d.wire.penColor ∧
      (d.step sc (.moveB p)).wire.penColor = d.wire.penColor) :=
  ⟨⟨rfl, rfl, rfl, rfl⟩,
   fun _ _ => ⟨rfl, rfl⟩,
   fun _ _ _ _ _ _ => rfl,
   fun _ _ _ => ⟨rfl, rfl⟩⟩

/-- Counterexample to C2: in the diagram with component `A` centred at
`(0,0)`, component `B` at `(0,100)` and a NORMAL wire from `A.BOTTOM` to
`B.TOP`, moving `A` to `(100,100)` leaves the wire's path at its construction
value, so the route no longer starts at the source socket's scene point: the
code never re-routes a wire when an endpoint moves. -/
theorem wire_stale_after_move_counterexample :
    ((mkDiagram ⟨0, 0⟩ ⟨0, 100⟩ Socket.BOTTOM Socket.TOP Mode.NORMAL).step
        canvasSceneParams (.moveA ⟨100, 100⟩)).wire.path =
      (mkDiagram ⟨0, 0⟩ ⟨0, 100⟩ Socket.BOTTOM Socket.TOP Mode.NORMAL).wire.path ∧
    ((mkDiagram ⟨0, 0⟩ ⟨0, 100⟩ Socket.BOTTOM Socket.TOP Mode.NORMAL).step
        canvasSceneParams (.moveA ⟨100, 100⟩)).wire.path.head? ≠
      ((mkDiagram ⟨0, 0⟩ ⟨0, 100⟩ Socket.BOTTOM Socket.TOP Mode.NORMAL).step
        canvasSceneParams (.moveA ⟨100, 100⟩)).compA.socketScenePoint
        Socket.BOTTOM := by
  have h1 : (mkDiagram ⟨0, 0⟩ ⟨0, 100⟩ Socket.BOTTOM Socket.TOP
      Mode.NORMAL).wire.path = [⟨0, 40⟩, ⟨0, 60⟩] := by
    simp only [mkDiagram, Wire.init, Wire.autoRoute, Wire.setMode,
      Wire.setTitle, mkComponent, Component.socketPoint, Component.pos,
      QRectF.center, QRectF.bottom, defaultSizeW, defaultSizeH,
      Option.toList]
    norm_num
  have hoffA : ((mkDiagram ⟨0, 0⟩ ⟨0, 100⟩ Socket.BOTTOM Socket.TOP
      Mode.NORMAL).step canvasSceneParams (.moveA ⟨100, 100⟩)).compA.offset =
      ⟨100, 100⟩ := by
    show itemChange (some canvasSceneParams) .itemPositionChange ⟨100, 100⟩ =
      ⟨100, 100⟩
    have hc : canvasSceneParams.sceneRect.containsPoint ⟨100, 100⟩ = true := by
      simp only [canvasSceneParams, canvasSceneRect, QRectF.containsPoint,
        QRectF.right, QRectF.bottom]
      norm_num
    have hsnap : snapToGrid canvasSceneParams.snapIncrement 100 = 100 := by
      have h100 : (100 : ℚ) = ((10 : ℤ) : ℚ) * canvasSceneParams.snapIncrement := by
        norm_num [canvasSceneParams, canvasSnapIncrement]
      rw [h100, snapToGrid_exact]
      norm_num [canvasSceneParams, canvasSnapIncrement]
    simp only [itemChange, hc, if_true, hsnap]
  have hsp : ((mkDiagram ⟨0, 0⟩ ⟨0, 100⟩ Socket.BOTTOM Socket.TOP
      Mode.NORMAL).step canvasSceneParams
      (.moveA ⟨100, 100⟩)).compA.socketPoint Socket.BOTTOM = some ⟨0, 40⟩ := by
    simp only [Diagram.step, mkDiagram, Component.socketPoint, Component.pos,
      QRectF.center, QRectF.bottom, mkComponent, defaultSizeW, defaultSizeH]
    norm_num
  have h2 : ((mkDiagram ⟨0, 0⟩ ⟨0, 100⟩ Socket.BOTTOM Socket.TOP
      Mode.NORMAL).step canvasSceneParams
      (.moveA ⟨100, 100⟩)).compA.socketScenePoint Socket.BOTTOM =
      some ⟨100, 140⟩ := by
    simp only [Component.socketScenePoint, hsp, Option.map_some', hoffA]
    norm_num
  have h1' : ((mkDiagram ⟨0, 0⟩ ⟨0, 100⟩ Socket.BOTTOM Socket.TOP
      Mode.NORMAL).step canvasSceneParams (.moveA ⟨100, 100⟩)).wire.path =
      [⟨0, 40⟩, ⟨0, 60⟩] := h1
  refine ⟨by rw [h1', h1], ?_⟩
  rw [h1', h2]
  simp only [List.head?, ne_eq, Option.some.injEq, QPointF.mk.injEq]
  norm_num

/-- C2 (amended): a `Wire`'s routed path is computed from the endpoints'
socket points only at construction and on an explicit `autoRoute` call;
moving an endpoint component through the position-change hook never
recomputes the path, which therefore goes stale. -/
theorem wire_route_only_at_construction_or_autoRoute :
    (∀ (posA posB : QPointF) (fs ts : Socket) (m : Mode),
      (mkDiagram posA posB fs ts m).wire.path =
        ((mkDiagram posA posB fs ts m).compA.socketPoint fs).toList ++
        ((mkDiagram posA posB fs ts m).compB.socketPoint ts).toList) ∧
    (∀ (sc : SceneParams) (d : Diagram) (p : QPointF),
      (d.step sc (.moveA p)).wire.path = d.wire.path ∧
      (d.step sc (.moveB p)).wire.path = d.wire.path) ∧
    (∀ (w : Wire) (fc : Component) (fs : Socket) (tc : Component) (ts : Socket),
      (w.autoRoute fc fs tc ts).path =
        (fc.socketPoint fs).toList ++ (tc.socketPoint ts).toList) := by
  refine ⟨fun posA posB fs ts m => ?_, fun _ _ _ => ⟨rfl, rfl⟩,
    fun _ _ _ _ _ => rfl⟩
  simp only [mkDiagram, Wire.init, Wire.setTitle, Wire.setMode, Wire.autoRoute]

theorem click_descriptor_wheel_arm (c a s : Bool) (dx dy : ℤ) (suffix : String) :
    click_descriptor ⟨c, a, s, .wheel dx dy⟩ suffix =
      (modifierTokens c a s ++ wheelTokens dx dy) ++ suffix := by
  cases c <;> cases a <;> cases s <;>
    simp only [click_descriptor, modifierTokens, wheelTokens] <;>
    split_ifs <;> rfl

set_option maxHeartbeats 1600000 in
theorem click_descriptor_button_arm (c a s : Bool) (b : ℕ) (suffix : String) :
    click_descriptor ⟨c, a, s, .button b⟩ suffix =
      (modifierTokens c a s ++ buttonToken b) ++ suffix := by
  cases c <;> cases a <;> cases s <;>
    simp only [click_descriptor, modifierTokens, buttonToken] <;>
    split_ifs <;> rfl

/-- C5: for every input event and suffix, the classifier's output is exactly
the modifier block (`ctrl-`, then `alt-`, then `shift-`, each present exactly
when held), followed by the single action-token block of the event, followed
by the caller's suffix verbatim. -/
theorem click_descriptor_structure (e : InputEvent) (suffix : String) :
    click_descriptor e suffix =
      (modifierTokens e.ctrl e.alt e.shift ++ actionToken e.kind) ++ suffix := by
  obtain ⟨c, a, s, k⟩ := e
  cases k with
  | wheel dx dy => exact click_descriptor_wheel_arm c a s dx dy suffix
  | button b => exact click_descriptor_button_arm c a s b suffix

theorem buttonToken_unknown {b : ℕ} (hb : b ∉ knownButtons) (hpos : 0 < b) :
    buttonToken b = "unknown-" := by
  simp only [knownButtons, rightButton, middleButton, backButton,
    forwardButton, leftButton, List.mem_cons, List.not_mem_nil, or_false,
    not_or] at hb
  obtain ⟨h2, h4, h8, h16, h1⟩ := hb
  unfold buttonToken
  split_ifs with g2 g4 g8 g16 g1
  · exact absurd (by simpa [rightButton] using g2) h2
  · exact absurd (by simpa [middleButton] using g4) h4
  · exact absurd (by simpa [backButton] using g8) h8
  · exact absurd (by simpa [forwardButton] using g16) h16
  · exact absurd (by simpa [leftButton] using g1) h1
  · rfl

/-- Counterexample to C4: on a plain forward-button click the classifier
emits the token `fwd-`, not the claimed `forward-`. -/
theorem forward_button_token_counterexample :
    click_descriptor ⟨false, false, false, .button 16⟩ "click" = "fwd-click" ∧
    click_descriptor ⟨false, false, false, .button 16⟩ "click" ≠ "forward-click" :=
  ⟨rfl, by decide⟩

/-- C4 (amended): for every pointer-button event the classifier emits exactly
one of `right-`, `middle-`, `back-`, `fwd-`, `left-` matching the triggering
button; a positive button value outside the known set yields `unknown-` (the
diagnostic is a print, classification still returns a string); a zero button
value contributes no token. -/
theorem click_descriptor_button_tokens (c a s : Bool) (b : ℕ) (suffix : String)
    (hb : b ∉ knownButtons) (hpos : 0 < b) :
    click_descriptor ⟨c, a, s, .button b⟩ suffix =
      (modifierTokens c a s ++ "unknown-") ++ suffix ∧
    click_descriptor ⟨c, a, s, .button rightButton⟩ suffix =
      (modifierTokens c a s ++ "right-") ++ suffix ∧
    click_descriptor ⟨c, a, s, .button middleButton⟩ suffix =
      (modifierTokens c a s ++ "middle-") ++ suffix ∧
    click_descriptor ⟨c, a, s, .button backButton⟩ suffix =
      (modifierTokens c a s ++ "back-") ++ suffix ∧
    click_descriptor ⟨c, a, s, .button forwardButton⟩ suffix =
      (modifierTokens c a s ++ "fwd-") ++ suffix ∧
    click_descriptor ⟨c, a, s, .button leftButton⟩ suffix =
      (modifierTokens c a s ++ "left-") ++ suffix ∧
    click_descriptor ⟨c, a, s, .button 0⟩ suffix =
      (modifierTokens c a s ++ "") ++ suffix := by
  refine ⟨?_, ?_, ?_, ?_, ?_, ?_, ?_⟩
  · rw [click_descriptor_button_arm, buttonToken_unknown hb hpos]
  all_goals rw [click_descriptor_button_arm]
  all_goals rfl

/-- Witness for C4 (amended) at the unrecognized button value 3 with a
ctrl modifier and suffix `click`. -/
theorem click_descriptor_button_tokens_witness :
    click_descriptor ⟨true, false, false, .button 3⟩ "click" =
      (modifierTokens true false false ++ "unknown-") ++ "click" ∧
    click_descriptor ⟨true, false, false, .button rightButton⟩ "click" =
      (modifierTokens true false false ++ "right-") ++ "click" ∧
    click_descriptor ⟨true, false, false, .button middleButton⟩ "click" =
      (modifierTokens true false false ++ "middle-") ++ "click" ∧
    click_descriptor ⟨true, false, false, .button backButton⟩ "click" =
      (modifierTokens true false false ++ "back-") ++ "click" ∧
    click_descriptor ⟨true, false, false, .button forwardButton⟩ "click" =
      (modifierTokens true false false ++ "fwd-") ++ "click" ∧
    click_descriptor ⟨true, false, false, .button leftButton⟩ "click" =
      (modifierTokens true false false ++ "left-") ++ "click" ∧
    click_descriptor ⟨true, false, false, .button 0⟩ "click" =
      (modifierTokens true false false ++ "") ++ "click" :=
  click_descriptor_button_tokens true false false 3 "click" (by decide) (by decide)

namespace CanvasView

theorem zoom_by_factor_keeps (s : ZoomState) (f : ℚ)
    (he : s.zoom = s.m11) (h1 : _zoom_min < s.zoom) (h2 : s.zoom < _zoom_max) :
    (zoom_by_factor s f).zoom = (zoom_by_factor s f).m11 ∧
    _zoom_min < (zoom_by_factor s f).zoom ∧
    (zoom_by_factor s f).zoom < _zoom_max := by
  simp only [zoom_by_factor]
  split_ifs with hc
  · rw [he] at hc
    exact ⟨rfl, hc.1, hc.2⟩
  · exact ⟨he, h1, h2⟩

theorem applyZoomCalls_keeps (calls : List ZoomCall) :
    ∀ s : ZoomState, s.zoom = s.m11 → _zoom_min < s.zoom → s.zoom < _zoom_max →
    (applyZoomCalls s calls).zoom = (applyZoomCalls s calls).m11 ∧
    _zoom_min < (applyZoomCalls s calls).zoom ∧
    (applyZoomCalls s calls).zoom < _zoom_max := by
  induction calls with
  | nil => exact fun s he h1 h2 => ⟨he, h1, h2⟩
  | cons call rest ih =>
    intro s he h1 h2
    have hstep :
        (applyZoomCall s call).zoom = (applyZoomCall s call).m11 ∧
        _zoom_min < (applyZoomCall s call).zoom ∧
        (applyZoomCall s call).zoom < _zoom_max := by
      cases call with
      | zin => exact zoom_by_factor_keeps s _zoom_factor he h1 h2
      | zout => exact zoom_by_factor_keeps s (1 / _zoom_factor) he h1 h2
    exact ih (applyZoomCall s call) hstep.1 hstep.2.1 hstep.2.2

/-- C3: starting from zoom scalar 1 with step 1.25, min 0.125, max 8, the
committed zoom scalar after every finite run of `zoom_in`/`zoom_out` calls
lies strictly inside `(min, max)`, and any single `zoom_by_factor` call whose
proposed scalar falls outside that open interval leaves the whole zoom state
unchanged. -/
theorem zoom_scalar_strictly_inside_bounds :
    (∀ calls : List ZoomCall,
      _zoom_min < (applyZoomCalls initState calls).zoom ∧
      (applyZoomCalls initState calls).zoom < _zoom_max) ∧
    (∀ (s : ZoomState) (f : ℚ),
      ¬(_zoom_min < s.zoom * f ∧ s.zoom * f < _zoom_max) →
      zoom_by_factor s f = s) := by
  constructor
  · intro calls
    have h := applyZoomCalls_keeps calls initState rfl
      (by norm_num [initState, _zoom_min]) (by norm_num [initState, _zoom_max])
    exact ⟨h.2.1, h.2.2⟩
  · intro s f hno
    simp only [zoom_by_factor]
    rw [if_neg hno]

/-- Witness for C3: a proposed factor of 100 from the initial state would
leave the open interval, so the call is a silent no-op. -/
theorem zoom_scalar_strictly_inside_bounds_witness :
    zoom_by_factor initState 100 = initState :=
  zoom_scalar_strictly_inside_bounds.2 initState 100
    (by norm_num [initState, _zoom_min, _zoom_max])

theorem applyZoomSeq_consistent (ops : List ZoomSeqOp) :
    ∀ s : ZoomState, (∀ op ∈ ops, fitOk op = true) →
    s.zoom = s.m11 → 0 < s.zoom →
    (applyZoomSeq s ops).zoom = (applyZoomSeq s ops).m11 ∧
    0 < (applyZoomSeq s ops).zoom := by
  induction ops with
  | nil => exact fun s _ he hp => ⟨he, hp⟩
  | cons op rest ih =>
    intro s hall he hp
    have hop := hall op (List.mem_cons_self op rest)
    have hrest : ∀ o ∈ rest, fitOk o = true :=
      fun o ho => hall o (List.mem_cons_of_mem op ho)
    have hstep : (applyZoomSeqOp s op).zoom = (applyZoomSeqOp s op).m11 ∧
        0 < (applyZoomSeqOp s op).zoom := by
      cases op with
      | zin =>
        show (zoom_by_factor s _zoom_factor).zoom =
            (zoom_by_factor s _zoom_factor).m11 ∧
          0 < (zoom_by_factor s _zoom_factor).zoom
        simp only [zoom_by_factor]
        split_ifs with hc
        · refine ⟨rfl, ?_⟩
          rw [← he]
          exact lt_trans (by norm_num [_zoom_min]) hc.1
        · exact ⟨he, hp⟩
      | zout =>
        show (zoom_by_factor s (1 / _zoom_factor)).zoom =
            (zoom_by_factor s (1 / _zoom_factor)).m11 ∧
          0 < (zoom_by_factor s (1 / _zoom_factor)).zoom
        simp only [zoom_by_factor]
        split_ifs with hc
        · refine ⟨rfl, ?_⟩
          rw [← he]
          exact lt_trans (by norm_num [_zoom_min]) hc.1
        · exact ⟨he, hp⟩
      | zfit k =>
        have hk : 0 < k := by simpa [fitOk] using hop
        exact ⟨rfl, hk⟩
    exact ih (applyZoomSeqOp s op) hrest hstep.1 hstep.2

/-- C6: after any finite sequence of zoom operations (`zoom_in`, `zoom_out`,
`zoom_to_fit` with the positive scale `fitInView` commits), a `zoom_reset`
call yields a committed zoom scalar of exactly 1 (dividing the transform by
the tracked scalar and re-reading the result). -/
theorem zoom_reset_yields_one (ops : List ZoomSeqOp)
    (h : ∀ op ∈ ops, fitOk op = true) :
    (zoom_reset (applyZoomSeq initState ops)).zoom = 1 ∧
    (zoom_reset (applyZoomSeq initState ops)).m11 = 1 := by
  have hinv := applyZoomSeq_consistent ops initState h rfl
    (by norm_num [initState])
  have hz : (applyZoomSeq initState ops).zoom ≠ 0 := ne_of_gt hinv.2
  have hval : (applyZoomSeq initState ops).m11 *
      (1 / (applyZoomSeq initState ops).zoom) = 1 := by
    rw [← hinv.1]
    field_simp
  exact ⟨hval, hval⟩

/-- Witness for C6: a `zoom_in` followed by a `zoom_to_fit` at scale 3, then
`zoom_reset`, lands the scalar back at exactly 1. -/
theorem zoom_reset_yields_one_witness :
    (zoom_reset (applyZoomSeq initState [ZoomSeqOp.zin, ZoomSeqOp.zfit 3])).zoom = 1 ∧
    (zoom_reset (applyZoomSeq initState [ZoomSeqOp.zin, ZoomSeqOp.zfit 3])).m11 = 1 :=
  zoom_reset_yields_one [ZoomSeqOp.zin, ZoomSeqOp.zfit 3] (by
    intro op hop
    simp only [List.mem_cons, List.not_mem_nil, or_false] at hop
    rcases hop with h | h <;> subst h <;> norm_num [fitOk])

end CanvasView

theorem mem_pyRange_aux (step : ℕ) (hs : 0 < step) :
    ∀ (n : ℕ) (a b : ℤ), (b - a).toNat ≤ n → ∀ x : ℤ,
      (x ∈ pyRange a b step ↔ a ≤ x ∧ x < b ∧ (step : ℤ) ∣ (x - a)) := by
  intro n
  induction n with
  | zero =>
    intro a b hn x
    have hba : b ≤ a := by omega
    rw [pyRange]
    rw [dif_neg (by omega)]
    simp only [List.not_mem_nil, false_iff, not_and]
    intro h1 h2
    omega
  | succ n ih =>
    intro a b hn x
    rw [pyRange]
    by_cases hab : a < b
    · rw [dif_pos ⟨hs, hab⟩]
      have hrec := ih (a + step) b (by omega) x
      rw [List.mem_cons, hrec]
      constructor
      · rintro (rfl | ⟨h1, h2, k, hk⟩)
        · exact ⟨le_refl x, hab, 0, by ring⟩
        · refine ⟨by omega, h2, k + 1, ?_⟩
          rw [mul_add, mul_one]
          omega
      · rintro ⟨h1, h2, k, hk⟩
        by_cases hxa : x = a
        · exact Or.inl hxa
        · have hk1 : 1 ≤ k := by
            rcases lt_or_le 0 k with h | h
            · omega
            · exfalso
              have hneg : (step : ℤ) * k ≤ 0 := by
                apply mul_nonpos_of_nonneg_of_nonpos <;> omega
              omega
          have hstepk : (step : ℤ) * 1 ≤ (step : ℤ) * k :=
            mul_le_mul_of_nonneg_left (by omega) (by omega)
          rw [mul_one] at hstepk
          refine Or.inr ⟨by omega, h2, k - 1, ?_⟩
          rw [mul_sub, mul_one]
          omega
    · rw [dif_neg (by omega)]
      simp only [List.not_mem_nil, false_iff, not_and]
      intro h1 h2
      omega

theorem mem_pyRange {step : ℕ} (hs : 0 < step) (a b x : ℤ) :
    x ∈ pyRange a b step ↔ a ≤ x ∧ x < b ∧ (step : ℤ) ∣ (x - a) :=
  mem_pyRange_aux step hs (b - a).toNat a b le_rfl x

theorem sortCoords_eq (major medium : ℤ) (l : List ℤ) :
    sortCoords major medium l =
      (l.filter fun z => z % major == 0,
       l.filter fun z => !(z % major == 0) && (z % medium == 0),
       l.filter fun z => !(z % major == 0) && !(z % medium == 0)) := by
  induction l with
  | nil => rfl
  | cons c cs ih =>
    by_cases h1 : c % major = 0
    · have hb1 : (c % major == 0) = true := by simpa using h1
      simp [sortCoords, ih, List.filter_cons, h1, hb1]
    · have hb1 : (c % major == 0) = false := by simpa using h1
      by_cases h2 : c % medium = 0
      · have hb2 : (c % medium == 0) = true := by simpa using h2
        simp [sortCoords, ih, List.filter_cons, h1, h2, hb1, hb2]
      · have hb2 : (c % medium == 0) = false := by simpa using h2
        simp [sortCoords, ih, List.filter_cons, h1, h2, hb1, hb2]

theorem expandedGridRect_left_dvd (minor : ℤ) (rect : QRectI) :
    minor ∣ (expandedGridRect minor rect).left := by
  show minor ∣ rect.left - minor - rect.left % minor
  have h := Int.ediv_add_emod rect.left minor
  have heq : rect.left - minor - rect.left % minor =
      minor * (rect.left / minor) - minor := by omega
  rw [heq]
  exact dvd_sub (Dvd.intro _ rfl) dvd_rfl

theorem expandedGridRect_top_dvd (minor : ℤ) (rect : QRectI) :
    minor ∣ (expandedGridRect minor rect).top := by
  show minor ∣ rect.top - minor - rect.top % minor
  have h := Int.ediv_add_emod rect.top minor
  have heq : rect.top - minor - rect.top % minor =
      minor * (rect.top / minor) - minor := by omega
  rw [heq]
  exact dvd_sub (Dvd.intro _ rfl) dvd_rfl

theorem expandedGridRect_left_lt_right (minor : ℤ) (rect : QRectI)
    (hm : 0 < minor) (hw : 0 ≤ rect.width) :
    (expandedGridRect minor rect).left < (expandedGridRect minor rect).right := by
  have h1 : 0 ≤ rect.width % minor := Int.emod_nonneg _ (ne_of_gt hm)
  show rect.left - minor - rect.left % minor <
    (rect.left - minor - rect.left % minor) +
      (rect.width + 2 * (minor + rect.width % minor)) - 1
  omega

theorem vLine_ne_hLine {r : QRectI} (hlr : r.left < r.right) (x y : ℤ) :
    vLine r x ≠ hLine r y := by
  intro h
  simp only [vLine, hLine, LineSeg.mk.injEq] at h
  omega

theorem vLine_mem_map {r : QRectI} (l : List ℤ) (x : ℤ) :
    vLine r x ∈ l.map (vLine r) ↔ x ∈ l := by
  rw [List.mem_map]
  constructor
  · rintro ⟨z, hz, heq⟩
    have hzx : z = x := by
      simpa [vLine, LineSeg.mk.injEq] using heq
    rwa [hzx] at hz
  · intro h
    exact ⟨x, h, rfl⟩

theorem hLine_mem_map {r : QRectI} (l : List ℤ) (y : ℤ) :
    hLine r y ∈ l.map (hLine r) ↔ y ∈ l := by
  rw [List.mem_map]
  constructor
  · rintro ⟨z, hz, heq⟩
    have hzy : z = y := by
      have := heq
      simp only [hLine, LineSeg.mk.injEq] at this
      exact this.2.1
    rwa [hzy] at hz
  · intro h
    exact ⟨y, h, rfl⟩

theorem mem_vmap_append_hmap {r : QRectI} (hlr : r.left < r.right)
    (A B : List ℤ) (x : ℤ) :
    (vLine r x ∈ A.map (vLine r) ++ B.map (hLine r)) ↔ x ∈ A := by
  rw [List.mem_append]
  constructor
  · rintro (h | h)
    · exact (vLine_mem_map A x).mp h
    · exfalso
      rw [List.mem_map] at h
      obtain ⟨z, _, heq⟩ := h
      exact vLine_ne_hLine hlr x z heq.symm
  · intro h
    exact Or.inl ((vLine_mem_map A x).mpr h)

theorem mem_hmap_append_vmap {r : QRectI} (hlr : r.left < r.right)
    (A B : List ℤ) (y : ℤ) :
    (hLine r y ∈ A.map (vLine r) ++ B.map (hLine r)) ↔ y ∈ B := by
  rw [List.mem_append]
  constructor
  · rintro (h | h)
    · exfalso
      rw [List.mem_map] at h
      obtain ⟨z, _, heq⟩ := h
      exact vLine_ne_hLine hlr z y heq
    · exact (hLine_mem_map B y).mp h
  · intro h
    exact Or.inr ((hLine_mem_map B y).mpr h)

theorem drawBackgroundLines_mem_v (minor : ℤ) (rect : QRectI)
    (hm : 0 < minor) (hw : 0 ≤ rect.width) (x : ℤ) :
    ((vLine (expandedGridRect minor rect) x ∈
        (drawBackgroundLines minor rect).linesMajor) ↔
      x ∈ pyRange (expandedGridRect minor rect).left
            (expandedGridRect minor rect).right minor.toNat ∧
        x % grid_major minor = 0) ∧
    ((vLine (expandedGridRect minor rect) x ∈
        (drawBackgroundLines minor rect).linesMedium) ↔
      x ∈ pyRange (expandedGridRect minor rect).left
            (expandedGridRect minor rect).right minor.toNat ∧
        ¬x % grid_major minor = 0 ∧ x % grid_medium minor = 0) ∧
    ((vLine (expandedGridRect minor rect) x ∈
        (drawBackgroundLines minor rect).linesMinor) ↔
      x ∈ pyRange (expandedGridRect minor rect).left
            (expandedGridRect minor rect).right minor.toNat ∧
        ¬x % grid_major minor = 0 ∧ ¬x % grid_medium minor = 0) := by
  have hlr := expandedGridRect_left_lt_right minor rect hm hw
  simp only [drawBackgroundLines, sortCoords_eq]
  refine ⟨?_, ?_, ?_⟩ <;>
    rw [mem_vmap_append_hmap hlr, List.mem_filter] <;>
    simp [and_assoc]

theorem drawBackgroundLines_mem_h (minor : ℤ) (rect : QRectI)
    (hm : 0 < minor) (hw : 0 ≤ rect.width) (y : ℤ) :
    ((hLine (expandedGridRect minor rect) y ∈
        (drawBackgroundLines minor rect).linesMajor) ↔
      y ∈ pyRange (expandedGridRect minor rect).top
            (expandedGridRect minor rect).bottom minor.toNat ∧
        y % grid_major minor = 0) ∧
    ((hLine (expandedGridRect minor rect) y ∈
        (drawBackgroundLines minor rect).linesMedium) ↔
      y ∈ pyRange (expandedGridRect minor rect).top
            (expandedGridRect minor rect).bottom minor.toNat ∧
        ¬y % grid_major minor = 0 ∧ y % grid_medium minor = 0) ∧
    ((hLine (expandedGridRect minor rect) y ∈
        (drawBackgroundLines minor rect).linesMinor) ↔
      y ∈ pyRange (expandedGridRect minor rect).top
            (expandedGridRect minor rect).bottom minor.toNat ∧
        ¬y % grid_major minor = 0 ∧ ¬y % grid_medium minor = 0) := by
  have hlr := expandedGridRect_left_lt_right minor rect hm hw
  simp only [drawBackgroundLines, sortCoords_eq]
  refine ⟨?_, ?_, ?_⟩ <;>
    rw [mem_hmap_append_vmap hlr, List.mem_filter] <;>
    simp [and_assoc]

/-- C7: every grid coordinate that is a multiple of the minor pitch and lies
in the iterated span of the expanded background rectangle gets its line
placed in exactly one of the three bins — major when divisible by the major
pitch (25 × minor), else medium when divisible by the medium pitch
(5 × minor), else minor — while the two axis segments at `x = 0` and `y = 0`
are always emitted additionally in the separate axis bin, so coordinate 0
yields a line in both the major bin and the axis bin. -/
theorem grid_lines_binned_by_pitch (minor : ℤ) (rect : QRectI) (x y : ℤ)
    (hm : 0 < minor) (hw : 0 ≤ rect.width)
    (hxm : minor ∣ x)
    (hx1 : (expandedGridRect minor rect).left ≤ x)
    (hx2 : x < (expandedGridRect minor rect).right)
    (hym : minor ∣ y)
    (hy1 : (expandedGridRect minor rect).top ≤ y)
    (hy2 : y < (expandedGridRect minor rect).bottom) :
    ((vLine (expandedGridRect minor rect) x ∈
        (drawBackgroundLines minor rect).linesMajor) ↔ 25 * minor ∣ x) ∧
    ((vLine (expandedGridRect minor rect) x ∈
        (drawBackgroundLines minor rect).linesMedium) ↔
      ¬(25 * minor ∣ x) ∧ 5 * minor ∣ x) ∧
    ((vLine (expandedGridRect minor rect) x ∈
        (drawBackgroundLines minor rect).linesMinor) ↔
      ¬(25 * minor ∣ x) ∧ ¬(5 * minor ∣ x)) ∧
    ((hLine (expandedGridRect minor rect) y ∈
        (drawBackgroundLines minor rect).linesMajor) ↔ 25 * minor ∣ y) ∧
    ((hLine (expandedGridRect minor rect) y ∈
        (drawBackgroundLines minor rect).linesMedium) ↔
      ¬(25 * minor ∣ y) ∧ 5 * minor ∣ y) ∧
    ((hLine (expandedGridRect minor rect) y ∈
        (drawBackgroundLines minor rect).linesMinor) ↔
      ¬(25 * minor ∣ y) ∧ ¬(5 * minor ∣ y)) ∧
    (vLine (expandedGridRect minor rect) 0 ∈
      (drawBackgroundLines minor rect).linesAxis) ∧
    (hLine (expandedGridRect minor rect) 0 ∈
      (drawBackgroundLines minor rect).linesAxis) ∧
    (x = 0 → vLine (expandedGridRect minor rect) 0 ∈
      (drawBackgroundLines minor rect).linesMajor) := by
  have hstep : 0 < minor.toNat := by omega
  have hcast : ((minor.toNat : ℤ)) = minor := Int.toNat_of_nonneg hm.le
  have hxs : x ∈ pyRange (expandedGridRect minor rect).left
      (expandedGridRect minor rect).right minor.toNat := by
    rw [mem_pyRange hstep, hcast]
    exact ⟨hx1, hx2, dvd_sub hxm (expandedGridRect_left_dvd minor rect)⟩
  have hys : y ∈ pyRange (expandedGridRect minor rect).top
      (expandedGridRect minor rect).bottom minor.toNat := by
    rw [mem_pyRange hstep, hcast]
    exact ⟨hy1, hy2, dvd_sub hym (expandedGridRect_top_dvd minor rect)⟩
  have hgmaj : grid_major minor = 25 * minor := by
    unfold grid_major grid_medium
    ring
  have hgmed : grid_medium minor = 5 * minor := by
    unfold grid_medium
    ring
  have hconv : ∀ n z : ℤ, z % n = 0 ↔ n ∣ z :=
    fun n z => ⟨Int.dvd_of_emod_eq_zero, Int.emod_eq_zero_of_dvd⟩
  obtain ⟨hv1, hv2, hv3⟩ := drawBackgroundLines_mem_v minor rect hm hw x
  obtain ⟨hh1, hh2, hh3⟩ := drawBackgroundLines_mem_h minor rect hm hw y
  refine ⟨?_, ?_, ?_, ?_, ?_, ?_, ?_, ?_, ?_⟩
  · rw [hv1, hconv, hgmaj]
    exact and_iff_right hxs
  · rw [hv2, hconv, hconv, hgmaj, hgmed]
    exact and_iff_right hxs
  · rw [hv3, hconv, hconv, hgmaj, hgmed]
    exact and_iff_right hxs
  · rw [hh1, hconv, hgmaj]
    exact and_iff_right hys
  · rw [hh2, hconv, hconv, hgmaj, hgmed]
    exact and_iff_right hys
  · rw [hh3, hconv, hconv, hgmaj, hgmed]
    exact and_iff_right hys
  · simp only [drawBackgroundLines]
    exact List.mem_cons_self _ _
  · simp only [drawBackgroundLines]
    exact List.mem_cons_of_mem _ (List.mem_cons_self _ _)
  · intro hx0
    subst hx0
    exact hv1.mpr ⟨hxs, Int.zero_emod _⟩

/-- Witness for C7, the spec's own test case: viewport `[0,0,100,100]` with
minor pitch 20 — the line at `x = 0` lands in both the major bin and the
axis bin. -/
theorem grid_lines_binned_by_pitch_witness :
    (vLine (expandedGridRect 20 ⟨0, 0, 100, 100⟩) 0 ∈
      (drawBackgroundLines 20 ⟨0, 0, 100, 100⟩).linesMajor) ∧
    (vLine (expandedGridRect 20 ⟨0, 0, 100, 100⟩) 0 ∈
      (drawBackgroundLines 20 ⟨0, 0, 100, 100⟩).linesAxis) := by
  have h := grid_lines_binned_by_pitch 20 ⟨0, 0, 100, 100⟩ 0 20
    (by decide) (by decide) (dvd_zero _) (by decide) (by decide)
    dvd_rfl (by decide) (by decide)
  exact ⟨h.1.mpr (dvd_zero _), h.2.2.2.2.2.2.1⟩

end Crowbar
